import Mathlib

/-!
Shallow embedding of the core logic of the apathy literature-screening
application (src/app/main.py): the deterministic workload partitioner
(get_group_article_ids), the per-group completion and conflict checker
(check_group_status), the screening-form upsert (submit_screen), the
conflict-resolution overwrite (resolve_conflict), the aggregated CSV
export (export_aggregated_disease) and the secondary-candidate text
export (export_secondary_candidates_txt), together with theorems about
their behaviour.

Database tables are modelled as lists of rows; the persistent schema is
taken to be the full modern one, so the defensive has-column probes of
the source always succeed.  Python's stable ascending list.sort on a
key tuple is modelled by a structurally recursive stable insertion
sort over the same key (author string falling back to empty, pmid
falling back to zero), comparing strings by code points exactly as
Python does.
-/

namespace ApathyScreen

/-- Bibliographic record row of the article table, with the columns the
core logic reads: id, authors, pmid, year, and the optional persisted
final decision used by the candidate export when present. -/
structure Article where
  id : Nat
  authors : Option String
  pmid : Option Nat
  year : Option Int
  finalDecision : Option Int
deriving Repr, DecidableEq

/-- User row: id and assigned group number. -/
structure UserRec where
  id : Nat
  groupNo : Nat
deriving Repr, DecidableEq

/-- Screening decision row for one (user, article) pair: tri-state
decision code (0 exclude, 1 adopt, 2 hold; none when undecided),
free-text comment, the two direction flags and the four category
flags. -/
structure DecRow where
  userId : Nat
  articleId : Nat
  decision : Option Nat
  comment : String
  flagCause : Bool
  flagTreatment : Bool
  catPhysical : Bool
  catBrain : Bool
  catPsycho : Bool
  catDrug : Bool
deriving Repr, DecidableEq

/-- Snapshot of the relational store plus the global configuration the
core reads: the optional year threshold and the constant group count
N_GROUPS, and whether the article table carries the final_decision
column. -/
structure AppState where
  users : List UserRec
  articles : List Article
  decisions : List DecRow
  yearMin : Option Int
  nGroups : Nat
  hasFinalCol : Bool
deriving Repr

/-! ## Partitioner: get_group_article_ids -/

/-- Year filter predicate of get_group_article_ids: a row survives the
threshold y when its year is present and at least y. -/
def yearPass (y : Int) (a : Article) : Bool :=
  match a.year with
  | some yr => decide (y ≤ yr)
  | none => false

/-- Rows surviving the optional year filter, with the fallback of the
source: when filtering would leave nothing, the unfiltered set is
used. -/
def survivors (arts : List Article) (yearMin : Option Int) : List Article :=
  match yearMin with
  | none => arts
  | some y =>
      let f := arts.filter (yearPass y)
      if f.isEmpty then arts else f

/-- Code-point lexicographic strict order on character lists, matching
Python string comparison. -/
def strLtB : List Char → List Char → Bool
  | [], [] => false
  | [], _ :: _ => true
  | _ :: _, [] => false
  | a :: as, b :: bs =>
      if a.toNat < b.toNat then true
      else if a.toNat = b.toNat then strLtB as bs
      else false

/-- Sort key of the partitioner: (authors or empty string, pmid or 0). -/
def sortKey (a : Article) : List Char × Nat :=
  ((a.authors.getD "").data, a.pmid.getD 0)

/-- Non-strict lexicographic comparison of sort keys. -/
def keyLe (k1 k2 : List Char × Nat) : Bool :=
  if strLtB k1.1 k2.1 then true
  else if strLtB k2.1 k1.1 then false
  else decide (k1.2 ≤ k2.2)

/-- Stable insertion of an element into an already processed list: the
new element goes after every element whose key is less than or equal to
its own, exactly where a stable ascending sort places a later input
element. -/
def stableInsert (le : α → α → Bool) (a : α) : List α → List α
  | [] => [a]
  | b :: bs => if le a b && !(le b a) then a :: b :: bs else b :: stableInsert le a bs

/-- Stable ascending sort, processing the input left to right; models
Python list.sort with a key function. -/
def stableSort (le : α → α → Bool) (l : List α) : List α :=
  l.foldl (fun acc a => stableInsert le a acc) []

/-- Article rows sorted by (authors or empty, pmid or 0) ascending. -/
def sortRows (l : List Article) : List Article :=
  stableSort (fun a b => keyLe (sortKey a) (sortKey b)) l

/-- Group assignment of the sorted position i among n records split
into g groups: i * g / n + 1, as in the source. -/
def assignGroup (n g i : Nat) : Nat :=
  i * g / n + 1

/-- Enumeration loop of get_group_article_ids: keep the id of every row
whose 0-indexed position is assigned to the requested group. -/
def pickIdsAux (g n j : Nat) : Nat → List Article → List Nat
  | _, [] => []
  | i, r :: rs =>
      if assignGroup n g i = j then r.id :: pickIdsAux g n j (i + 1) rs
      else pickIdsAux g n j (i + 1) rs

/-- Embedding of get_group_article_ids from src/app/main.py: empty
corpus yields the empty list; otherwise filter by the optional year
threshold (falling back to the full set when the filter empties it),
stable-sort by (authors, pmid), and keep the ids at positions assigned
to the requested group. -/
def get_group_article_ids (arts : List Article) (yearMin : Option Int)
    (nGroups groupNo : Nat) : List Nat :=
  if arts.isEmpty then []
  else
    let rows := sortRows (survivors arts yearMin)
    pickIdsAux nGroups rows.length groupNo 0 rows

/-! ## Conflict detector: check_group_status (disease mode) -/

/-- Latest submitted (non-null) decision code of a user on an article,
reproducing how the source fills decision_map: rows are scanned in
order and the last non-null decision wins. -/
def voteOf (decs : List DecRow) (aid uid : Nat) : Option Nat :=
  ((decs.filter (fun r => r.articleId == aid && (r.userId == uid && r.decision.isSome))).getLast?).bind
    (fun r => r.decision)

/-- Whether some user (any user with a row in the store, regardless of
group) has latest submitted code k on the article. -/
def hasCode (decs : List DecRow) (aid k : Nat) : Bool :=
  (decs.map (fun r => r.userId)).any (fun uid => voteOf decs aid uid == some k)

/-- Conflict rule of check_group_status for one article: no hold vote,
at least one adopt vote and at least one exclude vote. -/
def conflictAt (decs : List DecRow) (aid : Nat) : Bool :=
  !hasCode decs aid 2 && (hasCode decs aid 1 && hasCode decs aid 0)

/-- Reviewers assigned to the group. -/
def groupUsers (st : AppState) (g : Nat) : List UserRec :=
  st.users.filter (fun u => u.groupNo == g)

/-- Articles assigned to the group under the current configuration. -/
def groupArticleIds (st : AppState) (g : Nat) : List Nat :=
  get_group_article_ids st.articles st.yearMin st.nGroups g

/-- Completion test of the source's per-user loop: the user has
strictly fewer completed decisions than the group's article count. -/
def userIncomplete (st : AppState) (ids : List Nat) (u : UserRec) : Bool :=
  decide (ids.countP (fun aid => (voteOf st.decisions aid u.id).isSome) < ids.length)

/-- Embedding of check_group_status from src/app/main.py in disease
mode: empty reviewer set or empty assigned set yields (false, false);
any reviewer with an incomplete assignment yields (false, false);
otherwise the group is complete and conflicts are searched across all
assigned articles. -/
def check_group_status (st : AppState) (g : Nat) : Bool × Bool :=
  if (groupUsers st g).isEmpty then (false, false)
  else if (groupArticleIds st g).length == 0 then (false, false)
  else if (groupUsers st g).any (userIncomplete st (groupArticleIds st g)) then (false, false)
  else (true, (groupArticleIds st g).any (conflictAt st.decisions))

/-! ## Sample data used by concrete witnesses -/

/-- Sample corpus row used by concrete witnesses: id and pmid i, no
author, no year, no persisted final decision. -/
def mkArt (i : Nat) : Article :=
  ⟨i, none, some i, none, none⟩

/-- Ten sample records with ids 0 through 9. -/
def arts10 : List Article :=
  (List.range 10).map mkArt

/-- Decision row with only a decision code set. -/
def mkDec (u a d : Nat) : DecRow :=
  ⟨u, a, some d, "", false, false, false, false, false, false⟩

/-- Two-group state: users 1 and 2 in group 1, user 3 in group 2, two
articles (article 1 lands in group 1, article 2 in group 2), and the
two group-1 reviewers split adopt versus exclude on article 1. -/
def stBase : AppState :=
  ⟨[⟨1, 1⟩, ⟨2, 1⟩, ⟨3, 2⟩], [mkArt 1, mkArt 2],
    [mkDec 1 1 1, mkDec 2 1 0], none, 2, false⟩

/-- Same as stBase with an extra hold vote on article 1 by user 3, who
belongs to group 2. -/
def stHold : AppState :=
  { stBase with decisions := stBase.decisions ++ [mkDec 3 1 2] }

/-- Two-group state where both group-1 reviewers adopt article 1. -/
def stAgree : AppState :=
  { stBase with decisions := [mkDec 1 1 1, mkDec 2 1 1] }

/-- Same as stAgree with an extra exclude vote on article 1 by user 3,
who belongs to group 2. -/
def stOut0 : AppState :=
  { stAgree with decisions := stAgree.decisions ++ [mkDec 3 1 0] }

/-! ## Resolution applier: resolve_conflict (disease mode) -/

/-- Per-row effect of resolve_conflict: rows of the target article get
their decision overwritten with the resolution code, all other rows
and all other fields are untouched. -/
def resolveRow (aid res : Nat) (d : DecRow) : DecRow :=
  if d.articleId == aid then { d with decision := some res } else d

/-- Embedding of resolve_conflict from src/app/main.py in disease
mode: every stored decision row of the article, across all reviewers,
has its decision field set to the resolution code. -/
def resolve_conflict (aid res : Nat) (rows : List DecRow) : List DecRow :=
  rows.map (resolveRow aid res)

/-! ## Screening submission: submit_screen (decision-store effect) -/

/-- Form data of one screening submission: optional decision code,
comment, direction flags and category flags. -/
structure ScreenForm where
  decision : Option Nat
  comment : String
  flagCause : Bool
  flagTreatment : Bool
  catPhysical : Bool
  catBrain : Bool
  catPsycho : Bool
  catDrug : Bool
deriving Repr, DecidableEq

/-- Row update performed by the UPDATE branch of submit_screen: the
decision column is included in the SET list only when the form carries
a decision; comment and all flags are always overwritten. -/
def applyForm (f : ScreenForm) (r : DecRow) : DecRow :=
  { r with
    decision := match f.decision with
      | some d => some d
      | none => r.decision
    comment := f.comment
    flagCause := f.flagCause
    flagTreatment := f.flagTreatment
    catPhysical := f.catPhysical
    catBrain := f.catBrain
    catPsycho := f.catPsycho
    catDrug := f.catDrug }

/-- Row selector for one (user, article) pair. -/
def isPairRow (u a : Nat) (r : DecRow) : Bool :=
  r.userId == u && r.articleId == a

/-- Update of the first row matched by the selector, modelling the
UPDATE-by-primary-key of the first row found for the pair. -/
def updateFirst (p : α → Bool) (f : α → α) : List α → List α
  | [] => []
  | r :: rs => if p r then f r :: rs else r :: updateFirst p f rs

/-- Embedding of the decision-store effect of submit_screen from
src/app/main.py: when a row for the (user, article) pair exists it is
updated in place, otherwise a fresh row is inserted only when the form
carries a decision code. -/
def submit_screen (u a : Nat) (f : ScreenForm) (rows : List DecRow) : List DecRow :=
  if rows.any (isPairRow u a) then
    updateFirst (isPairRow u a) (applyForm f) rows
  else
    match f.decision with
    | some d => rows ++ [⟨u, a, some d, f.comment, f.flagCause, f.flagTreatment,
        f.catPhysical, f.catBrain, f.catPsycho, f.catDrug⟩]
    | none => rows

/-- Form with the decision control omitted and a nonempty comment. -/
def formNoDec : ScreenForm :=
  ⟨none, "x", false, false, false, false, false, false⟩

/-! ## Export aggregator: export_aggregated_disease -/

/-- Decision rows the aggregation keeps for one article: the source
skips rows that carry no decision, an empty comment and no category
flag at all. -/
def includedRows (decs : List DecRow) (aid : Nat) : List DecRow :=
  decs.filter (fun r => r.articleId == aid &&
    !(r.decision == none && (r.comment == "" &&
      (!r.catPhysical && (!r.catBrain && (!r.catPsycho && !r.catDrug))))))

/-- Histogram entry of the aggregation: how many kept rows of the
article carry decision code k. -/
def decCount (decs : List DecRow) (aid k : Nat) : Nat :=
  (includedRows decs aid).countP (fun r => r.decision == some k)

/-- Count lookup over the three decision codes. -/
def cntOf (c0 c1 c2 k : Nat) : Nat :=
  if k = 0 then c0 else if k = 1 then c1 else c2

/-- One comparison step of Python max with the key (count, code): the
candidate replaces the current best exactly when its key tuple is
strictly larger. -/
def pickBest (c0 c1 c2 best k : Nat) : Nat :=
  if cntOf c0 c1 c2 best < cntOf c0 c1 c2 k ∨
      (cntOf c0 c1 c2 best = cntOf c0 c1 c2 k ∧ best < k) then k else best

/-- Python max over the codes 0, 1, 2 keyed by (count, code): start
from 0, then compare 1 and 2 in turn. -/
def maxByKey (c0 c1 c2 : Nat) : Nat :=
  pickBest c0 c1 c2 (pickBest c0 c1 c2 0 1) 2

/-- Aggregated decision of one article: none when no kept row carries
a counted code, otherwise the code with the highest count, ties going
to the larger code. -/
def aggDecision (decs : List DecRow) (aid : Nat) : Option Nat :=
  if decCount decs aid 0 ≠ 0 ∨ decCount decs aid 1 ≠ 0 ∨ decCount decs aid 2 ≠ 0 then
    some (maxByKey (decCount decs aid 0) (decCount decs aid 1) (decCount decs aid 2))
  else none

/-- Category votes of one article under the flag extractor f: the flag
of every kept row, in row order. -/
def catVotes (decs : List DecRow) (aid : Nat) (f : DecRow → Bool) : List Bool :=
  (includedRows decs aid).map f

/-- Final category flag: set when there is at least one vote and the
largest vote is 1. -/
def catFinal (decs : List DecRow) (aid : Nat) (f : DecRow → Bool) : Bool :=
  !(catVotes decs aid f).isEmpty && (catVotes decs aid f).any id

/-- Category conflict flag: some vote is 1 and some vote is 0. -/
def catConflict (decs : List DecRow) (aid : Nat) (f : DecRow → Bool) : Bool :=
  (catVotes decs aid f).any id && (catVotes decs aid f).any (fun b => !b)

/-! ## Candidate export: export_secondary_candidates_txt (disease mode) -/

/-- Non-null decision values stored for one article, across all
reviewers, in row order. -/
def decsFor (decs : List DecRow) (aid : Nat) : List Nat :=
  decs.filterMap (fun r => if r.articleId == aid then r.decision else none)

/-- Pmid of the article with the given id, when the article exists and
carries one. -/
def pmidOf (arts : List Article) (aid : Nat) : Option Nat :=
  (arts.find? (fun a => a.id == aid)).bind (fun a => a.pmid)

/-- Maximum of a list of naturals, zero on the empty list. -/
def listMax (l : List Nat) : Nat :=
  l.foldl Nat.max 0

/-- Deduplicated ascending listing, modelling Python sorted over a
set of collected pmids. -/
def dedupSort (l : List Nat) : List Nat :=
  stableSort (fun a b => decide (a ≤ b)) l.dedup

/-- Pmids collected by the vote-fallback branch of the candidate
export: articles with at least one stored decision whose maximum
stored code is at least adopt, provided the article exists and has a
truthy (nonzero) pmid. -/
def candidatePmids (st : AppState) (ids : List Nat) : List Nat :=
  dedupSort (ids.filterMap (fun aid =>
    if !(decsFor st.decisions aid).isEmpty && decide (1 ≤ listMax (decsFor st.decisions aid)) then
      match pmidOf st.articles aid with
      | some p => if p ≠ 0 then some p else none
      | none => none
    else none))

/-- Pmids collected by the final-decision branch of the candidate
export: in-scope articles whose persisted final decision is present
and at least adopt, with a truthy pmid. -/
def candidatePmidsFinal (st : AppState) (ids : List Nat) : List Nat :=
  dedupSort (st.articles.filterMap (fun a =>
    if ids.contains a.id then
      match a.finalDecision with
      | some fd =>
          if 1 ≤ fd then
            match a.pmid with
            | some p => if p ≠ 0 then some p else none
            | none => none
          else none
      | none => none
    else none))

/-- Article ids in scope when exporting across all groups: every
article passing the year threshold, with the same fall-back to the
full set when the filter would empty it. -/
def allDiseaseIds (st : AppState) : List Nat :=
  match st.yearMin with
  | none => st.articles.map (fun a => a.id)
  | some y =>
      let rows := st.articles.filter (yearPass y)
      if rows.isEmpty then st.articles.map (fun a => a.id)
      else rows.map (fun a => a.id)

/-- Embedding of export_secondary_candidates_txt from src/app/main.py
in disease mode: a group-specific export first requires the group to
be complete and conflict-free, an all-groups export does not; the pmid
list comes from the persisted final decision when that column exists
and otherwise from the stored votes. -/
def export_secondary_candidates : AppState → Option Nat → Except String (List Nat)
  | st, some g =>
      if !(check_group_status st g).1 || (check_group_status st g).2 then
        Except.error "Error: Screening incomplete or conflicts exist."
      else if st.hasFinalCol then
        Except.ok (candidatePmidsFinal st (groupArticleIds st g))
      else
        Except.ok (candidatePmids st (groupArticleIds st g))
  | st, none =>
      if st.hasFinalCol then
        Except.ok (candidatePmidsFinal st (allDiseaseIds st))
      else
        Except.ok (candidatePmids st (allDiseaseIds st))

/-- Single-group state with three reviewers who vote exclude, exclude
and hold on the one article, which carries pmid 5: complete and
conflict-free, yet the aggregated decision is exclude. -/
def stC7 : AppState :=
  ⟨[⟨1, 1⟩, ⟨2, 1⟩, ⟨3, 1⟩], [⟨1, none, some 5, none, none⟩],
    [mkDec 1 1 0, mkDec 2 1 0, mkDec 3 1 2], none, 1, false⟩

/-! ## Counting lemmas for the partitioner -/

/-- Ceiling division on naturals, written with the usual addition
formula. -/
def cdiv (a g : Nat) : Nat :=
  (a + g - 1) / g

theorem length_stableInsert (le : α → α → Bool) (a : α) (l : List α) :
    (stableInsert le a l).length = l.length + 1 := by
  induction l with
  | nil => rfl
  | cons b bs ih =>
      simp only [stableInsert]
      split
      · simp
      · simp [ih]

theorem length_stableSort (le : α → α → Bool) (l : List α) :
    (stableSort le l).length = l.length := by
  have h : ∀ acc : List α,
      (l.foldl (fun acc a => stableInsert le a acc) acc).length = acc.length + l.length := by
    induction l with
    | nil => intro acc; simp
    | cons b bs ih =>
        intro acc
        simp only [List.foldl_cons]
        rw [ih, length_stableInsert]
        simp only [List.length_cons]
        omega
  simpa using h []

theorem pickIdsAux_length (g n j : Nat) (l : List Article) : ∀ i : Nat,
    (pickIdsAux g n j i l).length
      = List.countP (fun m => decide (assignGroup n g m = j)) (List.range' i l.length) := by
  induction l with
  | nil => intro i; simp [pickIdsAux]
  | cons r rs ih =>
      intro i
      simp only [pickIdsAux, List.length_cons, List.range'_succ, List.countP_cons]
      split
      · simp_all
      · simp_all

theorem countP_range_window (lo hi : Nat) : ∀ n : Nat,
    List.countP (fun m => decide (lo ≤ m ∧ m < hi)) (List.range n) = min hi n - min lo n := by
  intro n
  induction n with
  | zero => simp
  | succ k ih =>
      rw [List.range_succ, List.countP_append, ih]
      simp only [List.countP_cons, List.countP_nil, decide_eq_true_eq]
      split <;> omega

theorem cdiv_le_iff {a g : Nat} (i : Nat) (hg : 0 < g) : cdiv a g ≤ i ↔ a ≤ i * g := by
  unfold cdiv
  have h1 : i + 1 ≤ (a + g - 1) / g ↔ (i + 1) * g ≤ a + g - 1 := Nat.le_div_iff_mul_le hg
  have h2 : (i + 1) * g = i * g + g := by ring
  constructor
  · intro h
    by_contra hc
    push_neg at hc
    have : i + 1 ≤ (a + g - 1) / g := h1.mpr (by omega)
    omega
  · intro h
    by_contra hc
    push_neg at hc
    have := h1.mp hc
    omega

theorem lt_cdiv_iff {b g : Nat} (i : Nat) (hg : 0 < g) : i < cdiv b g ↔ i * g < b := by
  unfold cdiv
  have h1 : i + 1 ≤ (b + g - 1) / g ↔ (i + 1) * g ≤ b + g - 1 := Nat.le_div_iff_mul_le hg
  have h2 : (i + 1) * g = i * g + g := by ring
  constructor
  · intro h
    have := h1.mp h
    omega
  · intro h
    have : i + 1 ≤ (b + g - 1) / g := h1.mpr (by omega)
    omega

theorem assignGroup_eq_iff {n g j : Nat} (i : Nat) (hn : 0 < n) (hg : 0 < g) (hj : 1 ≤ j) :
    assignGroup n g i = j ↔ (cdiv ((j - 1) * n) g ≤ i ∧ i < cdiv (j * n) g) := by
  unfold assignGroup
  rw [cdiv_le_iff i hg, lt_cdiv_iff i hg]
  have h1 : j - 1 ≤ i * g / n ↔ (j - 1) * n ≤ i * g := Nat.le_div_iff_mul_le hn
  have h2 : i * g / n < j ↔ i * g < j * n := Nat.div_lt_iff_lt_mul hn
  constructor
  · intro h
    exact ⟨h1.mp (by omega), h2.mp (by omega)⟩
  · intro h
    have ha := h1.mpr h.1
    have hb := h2.mpr h.2
    omega

theorem cdiv_mul_ge (n g : Nat) (hg : 0 < g) : n ≤ cdiv n g * g := by
  have h := lt_cdiv_iff (b := n) (cdiv n g) hg
  omega

theorem cdiv_add_le (a n g : Nat) (hg : 0 < g) : cdiv (a + n) g ≤ cdiv a g + cdiv n g := by
  have hc := cdiv_mul_ge n g hg
  unfold cdiv at *
  calc (a + n + g - 1) / g ≤ (a + g - 1 + (n + g - 1) / g * g) / g :=
        Nat.div_le_div_right (by omega)
    _ = (a + g - 1) / g + (n + g - 1) / g := Nat.add_mul_div_right _ _ hg

theorem le_cdiv_add (a n g : Nat) (hg : 0 < g) : cdiv a g + n / g ≤ cdiv (a + n) g := by
  have hc : n / g * g ≤ n := Nat.div_mul_le_self n g
  unfold cdiv
  calc (a + g - 1) / g + n / g = (a + g - 1 + n / g * g) / g :=
        (Nat.add_mul_div_right _ _ hg).symm
    _ ≤ (a + n + g - 1) / g := Nat.div_le_div_right (by omega)

theorem cdiv_le_floor_succ (n g : Nat) (hg : 0 < g) : cdiv n g ≤ n / g + 1 := by
  unfold cdiv
  have h : n / g + 1 = (n + g) / g := (Nat.add_div_right n hg).symm
  rw [h]
  exact Nat.div_le_div_right (by omega)

theorem survivors_ne_nil_of (arts : List Article) (ym : Option Int)
    (h : survivors arts ym ≠ []) : arts ≠ [] := by
  intro ha
  subst ha
  cases ym <;> simp [survivors] at h

/-- Size of the slice a group receives, as a difference of ceilings. -/
theorem get_group_article_ids_length (arts : List Article) (ym : Option Int) (g j : Nat)
    (hne : survivors arts ym ≠ []) (hg : 1 ≤ g) (hj1 : 1 ≤ j) (hjg : j ≤ g) :
    (get_group_article_ids arts ym g j).length
      = cdiv (j * (survivors arts ym).length) g
          - cdiv ((j - 1) * (survivors arts ym).length) g := by
  have harts : arts ≠ [] := survivors_ne_nil_of arts ym hne
  unfold get_group_article_ids
  rw [if_neg (by simpa using harts)]
  have hlen : (sortRows (survivors arts ym)).length = (survivors arts ym).length := by
    unfold sortRows
    exact length_stableSort _ _
  set n := (survivors arts ym).length with hn
  have hnpos : 0 < n := by
    rw [hn]
    exact List.length_pos.mpr hne
  rw [pickIdsAux_length, hlen]
  rw [← List.range_eq_range']
  have hcong : List.countP (fun m => decide (assignGroup n g m = j)) (List.range n)
      = List.countP (fun m => decide (cdiv ((j - 1) * n) g ≤ m ∧ m < cdiv (j * n) g))
          (List.range n) := by
    apply List.countP_congr
    intro m _
    simp only [decide_eq_true_eq]
    exact assignGroup_eq_iff m hnpos hg hj1
  rw [hcong, countP_range_window]
  have hhi : cdiv (j * n) g ≤ n := by
    rw [cdiv_le_iff n hg]
    calc j * n ≤ g * n := Nat.mul_le_mul_right n hjg
      _ = n * g := Nat.mul_comm g n
  have hlo : cdiv ((j - 1) * n) g ≤ cdiv (j * n) g := by
    unfold cdiv
    exact Nat.div_le_div_right (by
      have : (j - 1) * n ≤ j * n := Nat.mul_le_mul_right n (by omega)
      omega)
  omega

/-- C3: for every non-empty surviving record list of length n and every
group count g at least 1, assigning the record at 0-indexed position i
to group i * g / n + 1 yields groups whose sizes are each either
floor(n/g) or ceil(n/g), and the assignment is monotone in the
position, so contiguous position ranges go to the same group. -/
theorem partition_balance (arts : List Article) (ym : Option Int) (g j : Nat)
    (hne : survivors arts ym ≠ []) (hg : 1 ≤ g) (hj1 : 1 ≤ j) (hjg : j ≤ g) :
    ((get_group_article_ids arts ym g j).length = (survivors arts ym).length / g ∨
      (get_group_article_ids arts ym g j).length
        = ((survivors arts ym).length + g - 1) / g) ∧
    (∀ i1 i2 : Nat, i1 ≤ i2 →
      assignGroup (survivors arts ym).length g i1
        ≤ assignGroup (survivors arts ym).length g i2) := by
  set n := (survivors arts ym).length with hn
  have hlen := get_group_article_ids_length arts ym g j hne hg hj1 hjg
  rw [← hn] at hlen
  constructor
  · have hj' : (j - 1) * n + n = j * n := by
      have h1 : (j - 1) + 1 = j := by omega
      calc (j - 1) * n + n = ((j - 1) + 1) * n := (Nat.succ_mul (j - 1) n).symm
        _ = j * n := by rw [h1]
    have hup : cdiv (j * n) g ≤ cdiv ((j - 1) * n) g + cdiv n g := by
      have h := cdiv_add_le ((j - 1) * n) n g hg
      rw [hj'] at h
      exact h
    have hlow : cdiv ((j - 1) * n) g + n / g ≤ cdiv (j * n) g := by
      have h := le_cdiv_add ((j - 1) * n) n g hg
      rw [hj'] at h
      exact h
    have hceil := cdiv_le_floor_succ n g hg
    have hceq : cdiv n g = (n + g - 1) / g := rfl
    omega
  · intro i1 i2 h
    unfold assignGroup
    have hm : i1 * g ≤ i2 * g := Nat.mul_le_mul_right g h
    have h2 : i1 * g / n ≤ i2 * g / n := Nat.div_le_div_right hm
    omega

/-- C3 witness: with ten records and three groups the theorem applies,
and the three groups receive 4, 3 and 3 records in group order. -/
theorem partition_balance_witness :
    (((get_group_article_ids arts10 none 3 1).length = (survivors arts10 none).length / 3 ∨
       (get_group_article_ids arts10 none 3 1).length
         = ((survivors arts10 none).length + 3 - 1) / 3) ∧
     (∀ i1 i2 : Nat, i1 ≤ i2 →
       assignGroup (survivors arts10 none).length 3 i1
         ≤ assignGroup (survivors arts10 none).length 3 i2)) ∧
    (get_group_article_ids arts10 none 3 1).length = 4 ∧
    (get_group_article_ids arts10 none 3 2).length = 3 ∧
    (get_group_article_ids arts10 none 3 3).length = 3 := by
  refine ⟨partition_balance arts10 none 3 1 (by decide) (by decide) (by decide) (by decide),
    by decide, by decide, by decide⟩

/-- C8: filtering with a year threshold that would retain zero records
produces exactly the same group assignment as calling the partitioner
with no threshold at all. -/
theorem partition_filter_fallback (arts : List Article) (y : Int) (g j : Nat)
    (h : arts.filter (yearPass y) = []) :
    get_group_article_ids arts (some y) g j = get_group_article_ids arts none g j := by
  simp [get_group_article_ids, survivors, h]

/-- C8 witness: a corpus whose single record predates the threshold is
partitioned identically with and without the threshold. -/
theorem partition_filter_fallback_witness :
    ([Article.mk 1 none (some 1) (some 1990) none].filter (yearPass 2000) = []) ∧
    get_group_article_ids [Article.mk 1 none (some 1) (some 1990) none] (some 2000) 2 1
      = get_group_article_ids [Article.mk 1 none (some 1) (some 1990) none] none 2 1 :=
  ⟨by decide, partition_filter_fallback [Article.mk 1 none (some 1) (some 1990) none] 2000 2 1
    (by decide)⟩

theorem countP_lt_length_iff {α : Type} {p : α → Bool} {l : List α} :
    List.countP p l < l.length ↔ ∃ a ∈ l, p a = false := by
  have hle : List.countP p l ≤ l.length := List.countP_le_length p
  constructor
  · intro h
    by_contra hc
    push_neg at hc
    have hall : ∀ a ∈ l, p a = true := by
      intro a ha
      have hne := hc a ha
      cases hpa : p a with
      | false => exact absurd hpa hne
      | true => rfl
    rw [List.countP_eq_length.mpr hall] at h
    omega
  · rintro ⟨a, ha, hpa⟩
    rcases Nat.eq_or_lt_of_le hle with he | hlt
    · have := List.countP_eq_length.mp he a ha
      rw [hpa] at this
      exact absurd this (by simp)
    · exact hlt

/-- C2: check_group_status returns (false, false) exactly when the
group's reviewer set is empty, the assigned-article set is empty, or
some reviewer of the group lacks a non-null decision on some assigned
article; when none of these hold, the completion flag is true and
conflict evaluation is reached. -/
theorem check_group_status_gate (st : AppState) (g : Nat) :
    (check_group_status st g = (false, false) ↔
      (groupUsers st g = [] ∨ groupArticleIds st g = [] ∨
        ∃ u ∈ groupUsers st g, ∃ aid ∈ groupArticleIds st g,
          voteOf st.decisions aid u.id = none)) ∧
    (¬(groupUsers st g = [] ∨ groupArticleIds st g = [] ∨
        ∃ u ∈ groupUsers st g, ∃ aid ∈ groupArticleIds st g,
          voteOf st.decisions aid u.id = none) →
      (check_group_status st g).1 = true) := by
  have hmiss : ∀ u : UserRec, userIncomplete st (groupArticleIds st g) u = true ↔
      ∃ aid ∈ groupArticleIds st g, voteOf st.decisions aid u.id = none := by
    intro u
    unfold userIncomplete
    rw [decide_eq_true_eq, countP_lt_length_iff]
    constructor
    · rintro ⟨aid, ha, hf⟩
      refine ⟨aid, ha, ?_⟩
      cases hv : voteOf st.decisions aid u.id with
      | none => rfl
      | some v => rw [hv] at hf; simp at hf
    · rintro ⟨aid, ha, hv⟩
      exact ⟨aid, ha, by rw [hv]; rfl⟩
  have hany : ((groupUsers st g).any (userIncomplete st (groupArticleIds st g)) = true) ↔
      ∃ u ∈ groupUsers st g, ∃ aid ∈ groupArticleIds st g,
        voteOf st.decisions aid u.id = none := by
    rw [List.any_eq_true]
    constructor
    · rintro ⟨u, hu, hinc⟩
      exact ⟨u, hu, (hmiss u).mp hinc⟩
    · rintro ⟨u, hu, hex⟩
      exact ⟨u, hu, (hmiss u).mpr hex⟩
  unfold check_group_status
  by_cases h1 : (groupUsers st g).isEmpty
  · have h1e : groupUsers st g = [] := by
      cases hgu : groupUsers st g with
      | nil => rfl
      | cons a l => rw [hgu] at h1; simp [List.isEmpty] at h1
    rw [if_pos h1]
    constructor
    · constructor
      · intro _
        exact Or.inl h1e
      · intro _
        rfl
    · intro hnot
      exact absurd (Or.inl h1e) hnot
  · have h1e : groupUsers st g ≠ [] := by
      intro hh
      rw [hh] at h1
      simp [List.isEmpty] at h1
    by_cases h2 : (groupArticleIds st g).length == 0
    · have h2e : groupArticleIds st g = [] := by
        have hl : (groupArticleIds st g).length = 0 := by simpa using h2
        exact List.length_eq_zero.mp hl
      rw [if_neg h1, if_pos h2]
      constructor
      · constructor
        · intro _
          exact Or.inr (Or.inl h2e)
        · intro _
          rfl
      · intro hnot
        exact absurd (Or.inr (Or.inl h2e)) hnot
    · have h2e : groupArticleIds st g ≠ [] := by
        intro hh
        rw [hh] at h2
        simp at h2
      by_cases h3 : (groupUsers st g).any (userIncomplete st (groupArticleIds st g))
      · rw [if_neg h1, if_neg h2, if_pos h3]
        constructor
        · constructor
          · intro _
            exact Or.inr (Or.inr (hany.mp h3))
          · intro _
            rfl
        · intro hnot
          exact absurd (Or.inr (Or.inr (hany.mp h3))) hnot
      · rw [if_neg h1, if_neg h2, if_neg h3]
        constructor
        · constructor
          · intro hfe
            exact absurd (congrArg Prod.fst hfe) (by simp)
          · intro hor
            rcases hor with h | h | h
            · exact absurd h h1e
            · exact absurd h h2e
            · exact absurd (hany.mpr h) (by simp [h3])
        · intro _
          rfl

/-- C2 witness: in the fully-decided sample state the gate condition
fails and the completion flag is true for group 1. -/
theorem check_group_status_gate_witness :
    (check_group_status stBase 1 = (false, false) ↔
      (groupUsers stBase 1 = [] ∨ groupArticleIds stBase 1 = [] ∨
        ∃ u ∈ groupUsers stBase 1, ∃ aid ∈ groupArticleIds stBase 1,
          voteOf stBase.decisions aid u.id = none)) ∧
    (check_group_status stBase 1).1 = true :=
  ⟨(check_group_status_gate stBase 1).1,
    (check_group_status_gate stBase 1).2 (by decide)⟩

/-- C1: once check_group_status reports the group complete, its
conflict flag is true exactly when some assigned article has no hold
vote, at least one adopt vote and at least one exclude vote among the
submitted decision codes. -/
theorem check_group_status_conflict_rule (st : AppState) (g : Nat) (hc : Bool)
    (h : check_group_status st g = (true, hc)) :
    hc = true ↔ ∃ aid ∈ groupArticleIds st g,
      hasCode st.decisions aid 2 = false ∧
      (hasCode st.decisions aid 1 = true ∧ hasCode st.decisions aid 0 = true) := by
  unfold check_group_status at h
  by_cases h1 : (groupUsers st g).isEmpty
  · rw [if_pos h1] at h
    exact absurd (congrArg Prod.fst h) (by simp)
  · rw [if_neg h1] at h
    by_cases h2 : (groupArticleIds st g).length == 0
    · rw [if_pos h2] at h
      exact absurd (congrArg Prod.fst h) (by simp)
    · rw [if_neg h2] at h
      by_cases h3 : (groupUsers st g).any (userIncomplete st (groupArticleIds st g))
      · rw [if_pos h3] at h
        exact absurd (congrArg Prod.fst h) (by simp)
      · rw [if_neg h3] at h
        have hsnd := congrArg Prod.snd h
        simp only at hsnd
        rw [← hsnd]
        rw [List.any_eq_true]
        constructor
        · rintro ⟨aid, ha, hca⟩
          unfold conflictAt at hca
          refine ⟨aid, ha, ?_, ?_, ?_⟩ <;> revert hca <;>
            cases hasCode st.decisions aid 2 <;>
            cases hasCode st.decisions aid 1 <;>
            cases hasCode st.decisions aid 0 <;> simp
        · rintro ⟨aid, ha, hn2, hn1, hn0⟩
          refine ⟨aid, ha, ?_⟩
          unfold conflictAt
          rw [hn2, hn1, hn0]
          rfl

/-- C1 witness: in the sample state the group is complete and the
conflict flag is true, matched by article 1 carrying adopt and exclude
votes and no hold vote. -/
theorem check_group_status_conflict_rule_witness :
    check_group_status stBase 1 = (true, true) ∧
    (true = true ↔ ∃ aid ∈ groupArticleIds stBase 1,
      hasCode stBase.decisions aid 2 = false ∧
      (hasCode stBase.decisions aid 1 = true ∧ hasCode stBase.decisions aid 0 = true)) :=
  ⟨by decide, check_group_status_conflict_rule stBase 1 true (by decide)⟩

/-- C10: the conflict evaluation reads every user's decisions on the
group's articles, including users assigned to a different group, while
the completion gate only inspects the group's own reviewers; a hold
vote by out-of-group user 3 suppresses an existing adopt-exclude
conflict, and an exclude vote by user 3 creates a conflict where the
group's own reviewers agreed, with completion unaffected. -/
theorem out_of_group_vote_changes_conflict :
    (∀ u ∈ groupUsers stBase 1, u.id ≠ 3) ∧
    stHold.decisions = stBase.decisions ++ [mkDec 3 1 2] ∧
    check_group_status stBase 1 = (true, true) ∧
    check_group_status stHold 1 = (true, false) ∧
    stOut0.decisions = stAgree.decisions ++ [mkDec 3 1 0] ∧
    check_group_status stAgree 1 = (true, false) ∧
    check_group_status stOut0 1 = (true, true) := by
  refine ⟨by decide, rfl, by decide, by decide, rfl, by decide, by decide⟩

theorem map_eq_self_of {α : Type} {f : α → α} :
    ∀ {l : List α}, (∀ x ∈ l, f x = x) → l.map f = l := by
  intro l h
  induction l with
  | nil => rfl
  | cons a as ih =>
      simp only [List.map_cons]
      rw [h a (by simp), ih (fun x hx => h x (by simp [hx]))]

/-- C5: the resolve operation rewrites the store row by row, keeping
user, article, comment and every flag of each row, overwriting the
decision of exactly the rows of the target article with the resolution
code, never adding or removing rows, and leaving the store untouched
when the article has no rows. -/
theorem resolve_conflict_spec (rows : List DecRow) (aid res : Nat) :
    List.Forall₂ (fun d d' : DecRow =>
        d'.userId = d.userId ∧ d'.articleId = d.articleId ∧
        d'.comment = d.comment ∧ d'.flagCause = d.flagCause ∧
        d'.flagTreatment = d.flagTreatment ∧ d'.catPhysical = d.catPhysical ∧
        d'.catBrain = d.catBrain ∧ d'.catPsycho = d.catPsycho ∧
        d'.catDrug = d.catDrug ∧
        d'.decision = (if d.articleId = aid then some res else d.decision))
      rows (resolve_conflict aid res rows) ∧
    (resolve_conflict aid res rows).length = rows.length ∧
    ((∀ d ∈ rows, d.articleId ≠ aid) → resolve_conflict aid res rows = rows) := by
  refine ⟨?_, by simp [resolve_conflict], ?_⟩
  · unfold resolve_conflict
    induction rows with
    | nil => exact List.Forall₂.nil
    | cons d ds ih =>
        simp only [List.map_cons]
        refine List.Forall₂.cons ?_ ih
        by_cases hd : d.articleId = aid
        · simp [resolveRow, hd]
        · simp [resolveRow, hd]
  · intro hno
    exact map_eq_self_of (fun d hd => by simp [resolveRow, hno d hd])

/-- C5 witness: a store holding one row of a different article is left
exactly as it was. -/
theorem resolve_conflict_spec_witness :
    (∀ d ∈ [mkDec 1 1 0], d.articleId ≠ 5) ∧
    resolve_conflict 5 1 [mkDec 1 1 0] = [mkDec 1 1 0] :=
  ⟨by decide, (resolve_conflict_spec [mkDec 1 1 0] 5 1).2.2 (by decide)⟩

/-- C6 counterexample: resubmitting the form for an existing
(reviewer, record) row with the decision field omitted leaves the
stored decision code at its previous value instead of clearing it to
null. -/
theorem submit_screen_no_clear_counterexample :
    formNoDec.decision = none ∧
    (submit_screen 1 1 formNoDec [mkDec 1 1 1]).map (fun r => r.decision) = [some 1] ∧
    (submit_screen 1 1 formNoDec [mkDec 1 1 1]).map (fun r => r.decision) ≠ [none] := by
  refine ⟨rfl, by decide, by decide⟩

theorem updateFirst_map_eq {α β : Type} (p : α → Bool) (g : α → α) (tr : α → β)
    (h : ∀ r, p r = true → tr (g r) = tr r) :
    ∀ l : List α, (updateFirst p g l).map tr = l.map tr := by
  intro l
  induction l with
  | nil => rfl
  | cons r rs ih =>
      unfold updateFirst
      by_cases hp : p r
      · rw [if_pos hp]
        simp only [List.map_cons]
        rw [h r hp]
      · rw [if_neg hp]
        simp only [List.map_cons]
        rw [ih]

theorem countP_updateFirst {α : Type} (p q : α → Bool) (g : α → α)
    (h : ∀ r, q (g r) = q r) :
    ∀ l : List α, List.countP q (updateFirst p g l) = List.countP q l := by
  intro l
  induction l with
  | nil => rfl
  | cons r rs ih =>
      unfold updateFirst
      by_cases hp : p r
      · rw [if_pos hp]
        simp only [List.countP_cons, h]
      · rw [if_neg hp]
        simp only [List.countP_cons, ih]

/-- C6 amended: a submission whose decision field is omitted changes
no row's (user, article, decision) triple at all — the stored code is
left unchanged rather than cleared, no row is deleted and none is
created — and every submission preserves the invariant that at most
one decision row exists per (reviewer, record) pair. -/
theorem submit_screen_upsert (rows : List DecRow) (u a : Nat) (f : ScreenForm) :
    (f.decision = none →
      (submit_screen u a f rows).map (fun r => (r.userId, r.articleId, r.decision))
        = rows.map (fun r => (r.userId, r.articleId, r.decision))) ∧
    ((∀ v b : Nat, rows.countP (isPairRow v b) ≤ 1) →
      ∀ v b : Nat, (submit_screen u a f rows).countP (isPairRow v b) ≤ 1) := by
  constructor
  · intro hnone
    unfold submit_screen
    by_cases hex : rows.any (isPairRow u a)
    · rw [if_pos hex]
      exact updateFirst_map_eq _ _ _
        (fun r _ => by simp [applyForm, hnone]) rows
    · rw [if_neg hex, hnone]
  · intro hinv v b
    unfold submit_screen
    by_cases hex : rows.any (isPairRow u a)
    · rw [if_pos hex]
      rw [countP_updateFirst _ _ _ (fun r => by simp [applyForm, isPairRow]) rows]
      exact hinv v b
    · rw [if_neg hex]
      cases hf : f.decision with
      | none => exact hinv v b
      | some d =>
          rw [List.countP_append]
          by_cases hvb : v = u ∧ b = a
          · have hzero : rows.countP (isPairRow v b) = 0 := by
              rw [List.countP_eq_zero]
              intro r hr
              intro hpr
              rw [List.any_eq_true] at hex
              exact hex ⟨r, hr, by
                rw [hvb.1, hvb.2] at hpr
                exact hpr⟩
            rw [hzero]
            have hone : List.countP (isPairRow v b)
                [⟨u, a, some d, f.comment, f.flagCause, f.flagTreatment,
                  f.catPhysical, f.catBrain, f.catPsycho, f.catDrug⟩] ≤ 1 :=
              List.countP_le_length _
            omega
          · have hnew : isPairRow v b
                ⟨u, a, some d, f.comment, f.flagCause, f.flagTreatment,
                  f.catPhysical, f.catBrain, f.catPsycho, f.catDrug⟩ = false := by
              unfold isPairRow
              rw [Bool.eq_false_iff]
              intro hc
              simp only [Bool.and_eq_true, beq_iff_eq] at hc
              exact hvb ⟨hc.1.symm, hc.2.symm⟩
            have hsing : List.countP (isPairRow v b)
                [⟨u, a, some d, f.comment, f.flagCause, f.flagTreatment,
                  f.catPhysical, f.catBrain, f.catPsycho, f.catDrug⟩] = 0 := by
              simp [hnew]
            rw [hsing]
            simpa using hinv v b

/-- C6 amended witness: resubmitting the one-row store with the
decision omitted preserves every (user, article, decision) triple, and
the pair-uniqueness invariant holds afterwards. -/
theorem submit_screen_upsert_witness :
    formNoDec.decision = none ∧
    (submit_screen 1 1 formNoDec [mkDec 1 1 1]).map (fun r => (r.userId, r.articleId, r.decision))
      = [mkDec 1 1 1].map (fun r => (r.userId, r.articleId, r.decision)) ∧
    (∀ v b : Nat, (submit_screen 1 1 formNoDec [mkDec 1 1 1]).countP (isPairRow v b) ≤ 1) :=
  ⟨rfl, (submit_screen_upsert [mkDec 1 1 1] 1 1 formNoDec).1 rfl,
    (submit_screen_upsert [mkDec 1 1 1] 1 1 formNoDec).2
      (fun _ _ => List.countP_le_length _)⟩

theorem maxByKey_cases (c0 c1 c2 : Nat) :
    (maxByKey c0 c1 c2 = 2 ∧ c0 ≤ c2 ∧ c1 ≤ c2) ∨
    (maxByKey c0 c1 c2 = 1 ∧ c0 ≤ c1 ∧ c2 < c1) ∨
    (maxByKey c0 c1 c2 = 0 ∧ c1 < c0 ∧ c2 < c0) := by
  have e0 : cntOf c0 c1 c2 0 = c0 := rfl
  have e1 : cntOf c0 c1 c2 1 = c1 := rfl
  have e2 : cntOf c0 c1 c2 2 = c2 := rfl
  unfold maxByKey
  by_cases hA : c0 ≤ c1
  · have hin : pickBest c0 c1 c2 0 1 = 1 := by
      unfold pickBest
      rw [e0, e1]
      rw [if_pos (by omega)]
    rw [hin]
    unfold pickBest
    rw [e1, e2]
    by_cases hB : c1 ≤ c2
    · rw [if_pos (by omega)]
      exact Or.inl ⟨rfl, by omega, hB⟩
    · rw [if_neg (by omega)]
      exact Or.inr (Or.inl ⟨rfl, hA, by omega⟩)
  · have hin : pickBest c0 c1 c2 0 1 = 0 := by
      unfold pickBest
      rw [e0, e1]
      rw [if_neg (by omega)]
    rw [hin]
    unfold pickBest
    rw [e0, e2]
    by_cases hC : c0 ≤ c2
    · rw [if_pos (by omega)]
      exact Or.inl ⟨rfl, hC, by omega⟩
    · rw [if_neg (by omega)]
      exact Or.inr (Or.inr ⟨rfl, by omega, by omega⟩)

theorem mem_includedRows_of_decided {decs : List DecRow} {r : DecRow} {aid k : Nat}
    (hr : r ∈ decs) (hra : r.articleId = aid) (hrd : r.decision = some k) :
    r ∈ includedRows decs aid := by
  unfold includedRows
  rw [List.mem_filter]
  exact ⟨hr, by simp [hra, hrd]⟩

/-- C4: for every article with at least one kept row carrying a
decision code in 0, 1, 2, the aggregated decision is the code whose
histogram count is highest, with count ties resolved in favour of the
larger code. -/
theorem aggregated_decision_majority (decs : List DecRow) (aid : Nat)
    (h : ∃ r ∈ decs, r.articleId = aid ∧
      (r.decision = some 0 ∨ r.decision = some 1 ∨ r.decision = some 2)) :
    ∃ k, aggDecision decs aid = some k ∧ k ≤ 2 ∧
      (∀ k' : Nat, k' ≤ 2 → decCount decs aid k' ≤ decCount decs aid k) ∧
      (∀ k' : Nat, k' ≤ 2 → decCount decs aid k' = decCount decs aid k → k' ≤ k) := by
  obtain ⟨r, hr, hra, hrd⟩ := h
  have hpos : 0 < decCount decs aid 0 + decCount decs aid 1 + decCount decs aid 2 := by
    rcases hrd with h0 | h1 | h2
    · have hc : 0 < decCount decs aid 0 :=
        List.countP_pos_iff.mpr ⟨r, mem_includedRows_of_decided hr hra h0, by simp [h0]⟩
      omega
    · have hc : 0 < decCount decs aid 1 :=
        List.countP_pos_iff.mpr ⟨r, mem_includedRows_of_decided hr hra h1, by simp [h1]⟩
      omega
    · have hc : 0 < decCount decs aid 2 :=
        List.countP_pos_iff.mpr ⟨r, mem_includedRows_of_decided hr hra h2, by simp [h2]⟩
      omega
  unfold aggDecision
  rw [if_pos (by omega)]
  rcases maxByKey_cases (decCount decs aid 0) (decCount decs aid 1) (decCount decs aid 2)
    with ⟨he, hb1, hb2⟩ | ⟨he, hb1, hb2⟩ | ⟨he, hb1, hb2⟩
  · refine ⟨2, by rw [he], by omega, ?_, ?_⟩
    · intro k' hk'
      interval_cases k'
      · exact hb1
      · exact hb2
      · exact Nat.le_refl _
    · intro k' hk' _
      exact hk'
  · refine ⟨1, by rw [he], by omega, ?_, ?_⟩
    · intro k' hk'
      interval_cases k'
      · exact hb1
      · exact Nat.le_refl _
      · exact Nat.le_of_lt hb2
    · intro k' hk' heq
      interval_cases k'
      · omega
      · omega
      · omega
  · refine ⟨0, by rw [he], by omega, ?_, ?_⟩
    · intro k' hk'
      interval_cases k'
      · exact Nat.le_refl _
      · exact Nat.le_of_lt hb1
      · exact Nat.le_of_lt hb2
    · intro k' hk' heq
      interval_cases k'
      · omega
      · omega
      · omega

/-- C4 witness: one exclude vote and one hold vote tie at count one
and the tie goes to the larger code, hold. -/
theorem aggregated_decision_majority_witness :
    (∃ r ∈ [mkDec 1 1 0, mkDec 2 1 2], r.articleId = 1 ∧
      (r.decision = some 0 ∨ r.decision = some 1 ∨ r.decision = some 2)) ∧
    (∃ k, aggDecision [mkDec 1 1 0, mkDec 2 1 2] 1 = some k ∧ k ≤ 2 ∧
      (∀ k' : Nat, k' ≤ 2 →
        decCount [mkDec 1 1 0, mkDec 2 1 2] 1 k' ≤ decCount [mkDec 1 1 0, mkDec 2 1 2] 1 k) ∧
      (∀ k' : Nat, k' ≤ 2 →
        decCount [mkDec 1 1 0, mkDec 2 1 2] 1 k' = decCount [mkDec 1 1 0, mkDec 2 1 2] 1 k →
          k' ≤ k)) ∧
    aggDecision [mkDec 1 1 0, mkDec 2 1 2] 1 = some 2 :=
  ⟨⟨mkDec 1 1 0, by simp, by simp [mkDec]⟩,
    aggregated_decision_majority [mkDec 1 1 0, mkDec 2 1 2] 1
      ⟨mkDec 1 1 0, by simp, by simp [mkDec]⟩,
    by decide⟩

/-- C9: a category final flag is set exactly when at least one
decision row of the article has that category flag set, and the
category conflict flag is set exactly when among the kept rows at
least one has the flag set and at least one has it unset. -/
theorem category_or_semantics (decs : List DecRow) (aid : Nat) (f : DecRow → Bool)
    (hf : f = DecRow.catPhysical ∨ f = DecRow.catBrain ∨
      f = DecRow.catPsycho ∨ f = DecRow.catDrug) :
    (catFinal decs aid f = true ↔ ∃ r ∈ decs, r.articleId = aid ∧ f r = true) ∧
    (catConflict decs aid f = true ↔
      (∃ r ∈ includedRows decs aid, f r = true) ∧
      (∃ r ∈ includedRows decs aid, f r = false)) := by
  constructor
  · constructor
    · intro hfin
      unfold catFinal catVotes at hfin
      rw [Bool.and_eq_true] at hfin
      obtain ⟨b, hb, hid⟩ := List.any_eq_true.mp hfin.2
      obtain ⟨r, hrin, hrb⟩ := List.mem_map.mp hb
      have hdec : r ∈ decs ∧ r.articleId = aid := by
        unfold includedRows at hrin
        rw [List.mem_filter] at hrin
        refine ⟨hrin.1, ?_⟩
        have hp := hrin.2
        rw [Bool.and_eq_true] at hp
        simpa using hp.1
      exact ⟨r, hdec.1, hdec.2, by rw [hrb]; exact hid⟩
    · rintro ⟨r, hr, hra, hfr⟩
      have hrin : r ∈ includedRows decs aid := by
        unfold includedRows
        rw [List.mem_filter]
        refine ⟨hr, ?_⟩
        rcases hf with h | h | h | h <;> rw [h] at hfr <;> simp [hra, hfr]
      unfold catFinal catVotes
      rw [Bool.and_eq_true]
      constructor
      · cases hemp : includedRows decs aid with
        | nil => rw [hemp] at hrin; simp at hrin
        | cons x xs => rfl
      · exact List.any_eq_true.mpr ⟨f r, List.mem_map.mpr ⟨r, hrin, rfl⟩, hfr⟩
  · unfold catConflict catVotes
    rw [Bool.and_eq_true]
    constructor
    · rintro ⟨h1, h0⟩
      obtain ⟨b1, hb1, hid1⟩ := List.any_eq_true.mp h1
      obtain ⟨r1, hr1, hrb1⟩ := List.mem_map.mp hb1
      obtain ⟨b0, hb0, hid0⟩ := List.any_eq_true.mp h0
      obtain ⟨r0, hr0, hrb0⟩ := List.mem_map.mp hb0
      refine ⟨⟨r1, hr1, by rw [hrb1]; exact hid1⟩, ⟨r0, hr0, ?_⟩⟩
      have hb0f : b0 = false := by
        cases b0 with
        | false => rfl
        | true => exact absurd hid0 (by simp)
      rw [hrb0]
      exact hb0f
    · rintro ⟨⟨r1, hr1, hfr1⟩, ⟨r0, hr0, hfr0⟩⟩
      constructor
      · exact List.any_eq_true.mpr ⟨f r1, List.mem_map.mpr ⟨r1, hr1, rfl⟩, hfr1⟩
      · exact List.any_eq_true.mpr ⟨f r0, List.mem_map.mpr ⟨r0, hr0, rfl⟩, by rw [hfr0]; rfl⟩

/-- C9 witness: with one reviewer setting the physical category flag
and one reviewer leaving it unset on a decided row, the final flag is
set and the category conflict flag is set. -/
theorem category_or_semantics_witness :
    ((catFinal [⟨1, 1, some 0, "", false, false, true, false, false, false⟩, mkDec 2 1 0]
        1 DecRow.catPhysical = true ↔
      ∃ r ∈ [⟨1, 1, some 0, "", false, false, true, false, false, false⟩, mkDec 2 1 0],
        r.articleId = 1 ∧ r.catPhysical = true) ∧
     (catConflict [⟨1, 1, some 0, "", false, false, true, false, false, false⟩, mkDec 2 1 0]
        1 DecRow.catPhysical = true ↔
      (∃ r ∈ includedRows
          [⟨1, 1, some 0, "", false, false, true, false, false, false⟩, mkDec 2 1 0] 1,
        r.catPhysical = true) ∧
      (∃ r ∈ includedRows
          [⟨1, 1, some 0, "", false, false, true, false, false, false⟩, mkDec 2 1 0] 1,
        r.catPhysical = false))) ∧
    catFinal [⟨1, 1, some 0, "", false, false, true, false, false, false⟩, mkDec 2 1 0]
      1 DecRow.catPhysical = true ∧
    catConflict [⟨1, 1, some 0, "", false, false, true, false, false, false⟩, mkDec 2 1 0]
      1 DecRow.catPhysical = true :=
  ⟨category_or_semantics
      [⟨1, 1, some 0, "", false, false, true, false, false, false⟩, mkDec 2 1 0]
      1 DecRow.catPhysical (Or.inl rfl),
    by decide, by decide⟩

theorem mem_stableInsert {α : Type} {le : α → α → Bool} {x a : α} :
    ∀ {l : List α}, a ∈ stableInsert le x l ↔ a = x ∨ a ∈ l := by
  intro l
  induction l with
  | nil => simp [stableInsert]
  | cons b bs ih =>
      unfold stableInsert
      by_cases hb : le x b && !(le b x)
      · rw [if_pos hb]
        simp
      · rw [if_neg hb]
        simp only [List.mem_cons, ih]
        tauto

theorem mem_stableSort {α : Type} {le : α → α → Bool} {a : α} {l : List α} :
    a ∈ stableSort le l ↔ a ∈ l := by
  have h : ∀ acc : List α,
      (a ∈ l.foldl (fun acc x => stableInsert le x acc) acc ↔ a ∈ acc ∨ a ∈ l) := by
    induction l with
    | nil => intro acc; simp
    | cons b bs ih =>
        intro acc
        simp only [List.foldl_cons]
        rw [ih (stableInsert le b acc)]
        rw [mem_stableInsert]
        simp only [List.mem_cons]
        tauto
  have h2 := h []
  simp only [List.not_mem_nil, false_or] at h2
  exact h2

theorem one_le_listMax_iff {l : List Nat} : 1 ≤ listMax l ↔ ∃ d ∈ l, 1 ≤ d := by
  have h : ∀ acc : Nat, 1 ≤ l.foldl Nat.max acc ↔ 1 ≤ acc ∨ ∃ d ∈ l, 1 ≤ d := by
    induction l with
    | nil => intro acc; simp
    | cons x xs ih =>
        intro acc
        simp only [List.foldl_cons]
        rw [ih (Nat.max acc x)]
        simp only [List.mem_cons]
        constructor
        · rintro (hm | ⟨d, hd, h1⟩)
          · rcases le_max_iff.mp hm with h | h
            · exact Or.inl h
            · exact Or.inr ⟨x, Or.inl rfl, h⟩
          · exact Or.inr ⟨d, Or.inr hd, h1⟩
        · rintro (ha | ⟨d, hd, h1⟩)
          · exact Or.inl (le_max_iff.mpr (Or.inl ha))
          · rcases hd with rfl | hd
            · exact Or.inl (le_max_iff.mpr (Or.inr h1))
            · exact Or.inr ⟨d, hd, h1⟩
  have h2 := h 0
  unfold listMax
  rw [h2]
  simp

/-- C7 counterexample: a complete, conflict-free group whose single
record has votes exclude, exclude, hold is exported (its pmid 5 is in
the output) even though its aggregated decision is exclude, below
adopt. -/
theorem export_candidates_counterexample :
    check_group_status stC7 1 = (true, false) ∧
    export_secondary_candidates stC7 (some 1) = Except.ok [5] ∧
    pmidOf stC7.articles 1 = some 5 ∧
    groupArticleIds stC7 1 = [1] ∧
    aggDecision stC7.decisions 1 = some 0 ∧
    ¬(1 : Nat) ≤ 0 := by
  refine ⟨by decide, by rfl, by decide, by decide, by decide, by decide⟩

/-- C7 amended: the group-specific export fails with an error whenever
the group is incomplete or has conflicts; otherwise, and always for
the all-groups export, when the article table has no persisted
final-decision column the output is exactly the deduplicated ascending
pmids of in-scope records that are nonzero and have at least one
stored decision code at adopt or above (a maximum-vote rule, not the
histogram aggregated decision). -/
theorem export_candidates_spec (st : AppState) (g p : Nat) :
    (((check_group_status st g).1 = false ∨ (check_group_status st g).2 = true) →
      export_secondary_candidates st (some g)
        = Except.error "Error: Screening incomplete or conflicts exist.") ∧
    (st.hasFinalCol = false → (check_group_status st g).1 = true →
      (check_group_status st g).2 = false →
      export_secondary_candidates st (some g)
        = Except.ok (candidatePmids st (groupArticleIds st g))) ∧
    (st.hasFinalCol = false →
      export_secondary_candidates st none
        = Except.ok (candidatePmids st (allDiseaseIds st))) ∧
    (∀ ids : List Nat, p ∈ candidatePmids st ids ↔
      ∃ aid ∈ ids, pmidOf st.articles aid = some p ∧ p ≠ 0 ∧
        ∃ d ∈ decsFor st.decisions aid, 1 ≤ d) := by
  refine ⟨?_, ?_, ?_, ?_⟩
  · intro hgate
    have hcond : (!(check_group_status st g).1 || (check_group_status st g).2) = true := by
      rcases hgate with h | h
      · rw [h]; rfl
      · rw [h]; simp
    simp only [export_secondary_candidates]
    rw [if_pos hcond]
  · intro hcol hcomp hconf
    have hA : ¬((!(check_group_status st g).1 || (check_group_status st g).2) = true) := by
      rw [hcomp, hconf]
      simp
    have hB : ¬(st.hasFinalCol = true) := by
      rw [hcol]
      simp
    simp only [export_secondary_candidates]
    rw [if_neg hA, if_neg hB]
  · intro hcol
    have hB : ¬(st.hasFinalCol = true) := by
      rw [hcol]
      simp
    simp only [export_secondary_candidates]
    rw [if_neg hB]
  · intro ids
    unfold candidatePmids dedupSort
    rw [mem_stableSort, List.mem_dedup, List.mem_filterMap]
    constructor
    · rintro ⟨aid, hin, hf⟩
      refine ⟨aid, hin, ?_⟩
      by_cases hc : !(decsFor st.decisions aid).isEmpty
          && decide (1 ≤ listMax (decsFor st.decisions aid))
      · rw [if_pos hc] at hf
        rw [Bool.and_eq_true, decide_eq_true_eq] at hc
        cases hpm : pmidOf st.articles aid with
        | none => rw [hpm] at hf; simp at hf
        | some q =>
            rw [hpm] at hf
            by_cases hq : q = 0
            · subst hq
              simp at hf
            · have hqp : q = p := by
                have hh := hf
                simp [hq] at hh
                exact hh
              subst hqp
              exact ⟨rfl, hq, one_le_listMax_iff.mp hc.2⟩
      · rw [if_neg hc] at hf
        simp at hf
    · rintro ⟨aid, hin, hpm, hp0, d, hd, h1⟩
      refine ⟨aid, hin, ?_⟩
      have hmax : 1 ≤ listMax (decsFor st.decisions aid) := one_le_listMax_iff.mpr ⟨d, hd, h1⟩
      have hne : (decsFor st.decisions aid).isEmpty = false := by
        cases he : decsFor st.decisions aid with
        | nil => rw [he] at hd; exact absurd hd (by simp)
        | cons x xs => rfl
      rw [if_pos (by rw [hne, decide_eq_true hmax]; rfl)]
      rw [hpm]
      simp [hp0]

/-- C7 amended witness: the gate rejects the conflicted sample group;
the complete conflict-free state exports through the vote-fallback
branch and pmid 5 is in the output because of its hold vote. -/
theorem export_candidates_spec_witness :
    export_secondary_candidates stBase (some 1)
      = Except.error "Error: Screening incomplete or conflicts exist." ∧
    export_secondary_candidates stC7 (some 1)
      = Except.ok (candidatePmids stC7 (groupArticleIds stC7 1)) ∧
    (5 ∈ candidatePmids stC7 (groupArticleIds stC7 1) ↔
      ∃ aid ∈ groupArticleIds stC7 1, pmidOf stC7.articles aid = some 5 ∧ (5 : Nat) ≠ 0 ∧
        ∃ d ∈ decsFor stC7.decisions aid, 1 ≤ d) :=
  ⟨(export_candidates_spec stBase 1 5).1 (Or.inr (by decide)),
    (export_candidates_spec stC7 1 5).2.1 rfl (by decide) (by decide),
    (export_candidates_spec stC7 1 5).2.2.2 (groupArticleIds stC7 1)⟩

end ApathyScreen
